import Mathlib

/-!
Shallow embedding of the mini-db record store (Rust sources under src/):
model.rs (Row), errors.rs (DbError), storage.rs (LogEntry, Storage),
index.rs (IdIndex), engine.rs (Database), parser.rs (Command, parsing and
dispatch). Machine integers (u32 ids, u8 ages) are modeled as Nat; the
claims only compare them for equality and parse them with range checks.
Files on disk are modeled as a small functional filesystem mapping path
strings to line lists; fallible I/O of an individual write is modeled by
an explicit Bool oracle passed to the operation, with a failed write
leaving the file unchanged (the journal keeps only fully written prior
entries, per the atomic-line discipline of writeln).
-/

namespace MiniDb

/-- Translation of model.rs Row: id (u32), name, age (u8). -/
structure Row where
  id : Nat
  name : String
  age : Nat
deriving DecidableEq, Repr

/-- Translation of errors.rs DbError. The payloads irrelevant to the claims
(io error details, serde error details) are dropped; the constructor tags
match the Rust enum. -/
inductive DbError where
  | InvalidCommandError
  | DuplicateIdError (id : Nat)
  | ParseError (msg : String)
  | IoError
  | SerializationError
deriving DecidableEq, Repr

instance {ε α : Type} [DecidableEq ε] [DecidableEq α] : DecidableEq (Except ε α) :=
  fun a b =>
    match a, b with
    | .error x, .error y =>
      if h : x = y then isTrue (by rw [h]) else
        isFalse (by intro hc; cases hc; exact h rfl)
    | .error _, .ok _ => isFalse (by intro hc; cases hc)
    | .ok _, .error _ => isFalse (by intro hc; cases hc)
    | .ok x, .ok y =>
      if h : x = y then isTrue (by rw [h]) else
        isFalse (by intro hc; cases hc; exact h rfl)

/-- Translation of storage.rs LogEntry: the journal entry enum. -/
inductive LogEntry where
  | insert (row : Row) (timestamp : Int)
  | delete (id : Nat)
deriving DecidableEq, Repr

/-- One physical line of a file in the model. A journal line written by the
program is entry; blank is a line that is empty after trimming; corrupt is a
line that fails to decode as a LogEntry (torn or garbage bytes); snapArray is
a line holding one serialized JSON array of rows, the snapshot format, which
also fails to decode as a LogEntry. -/
inductive JLine where
  | entry (e : LogEntry)
  | blank
  | corrupt
  | snapArray (rows : List Row)
deriving DecidableEq, Repr

/-- Contents of one file: its list of lines. -/
abbrev FileData := List JLine

/-- Functional filesystem: association list from path strings to file data. -/
abbrev FS := List (String × FileData)

def FS.get : FS → String → Option FileData
  | [], _ => none
  | f :: fs, p => if f.1 = p then some f.2 else FS.get fs p

def FS.set : FS → String → FileData → FS
  | [], p, d => [(p, d)]
  | f :: fs, p, d => if f.1 = p then (p, d) :: fs else f :: FS.set fs p d

def FS.erase : FS → String → FS
  | [], _ => []
  | f :: fs, p => if f.1 = p then FS.erase fs p else f :: FS.erase fs p

/-- Appending one line through an open append-mode handle, modeled at path
granularity. -/
def FS.append (fs : FS) (p : String) (l : JLine) : FS :=
  match FS.get fs p with
  | some d => FS.set fs p (d ++ [l])
  | none => FS.set fs p [l]

/-- Atomic rename, as fs::rename in snapshot_write. -/
def FS.rename (fs : FS) (src dst : String) : FS :=
  match FS.get fs src with
  | some d => FS.set (FS.erase fs src) dst d
  | none => fs

/-- Association-list model of HashMap(u32, usize): lookup. -/
def mapGet : List (Nat × Nat) → Nat → Option Nat
  | [], _ => none
  | q :: m, k => if q.1 = k then some q.2 else mapGet m k

/-- Association-list model of HashMap insert: replace the binding if the key
is present, append it otherwise. -/
def mapInsert : List (Nat × Nat) → Nat → Nat → List (Nat × Nat)
  | [], k, v => [(k, v)]
  | q :: m, k, v => if q.1 = k then (k, v) :: m else q :: mapInsert m k v

/-- Association-list model of HashMap remove. -/
def mapErase : List (Nat × Nat) → Nat → List (Nat × Nat)
  | [], _ => []
  | q :: m, k => if q.1 = k then mapErase m k else q :: mapErase m k

/-- Translation of index.rs IdIndex: the id to position map. -/
structure IdIndex where
  row_map : List (Nat × Nat)
deriving DecidableEq, Repr

def IdIndex.new : IdIndex := ⟨[]⟩

/-- IdIndex::insert: duplicate-key error if the id is already mapped. -/
def IdIndex.insert (idx : IdIndex) (id position : Nat) : Except DbError IdIndex :=
  if (mapGet idx.row_map id).isSome then .error (.DuplicateIdError id)
  else .ok ⟨mapInsert idx.row_map id position⟩

/-- IdIndex::remove: unconditional removal. -/
def IdIndex.remove (idx : IdIndex) (id : Nat) : IdIndex :=
  ⟨mapErase idx.row_map id⟩

/-- IdIndex::get. -/
def IdIndex.get (idx : IdIndex) (id : Nat) : Option Nat :=
  mapGet idx.row_map id

/-- IdIndex::clear. -/
def IdIndex.clear (_idx : IdIndex) : IdIndex := ⟨[]⟩

/-- Loop body of IdIndex::rebuild: for (index, row) in rows.iter().enumerate,
row_map.insert(row.id, index). The counter i carries the enumeration index. -/
def rebuildGo (m : List (Nat × Nat)) (i : Nat) : List Row → List (Nat × Nat)
  | [] => m
  | r :: rs => rebuildGo (mapInsert m r.id i) (i + 1) rs

/-- IdIndex::rebuild. -/
def IdIndex.rebuild (rows : List Row) : IdIndex :=
  ⟨rebuildGo [] 0 rows⟩

/-- Vec::retain with predicate r.id != id, used by replay for Delete entries. -/
def retainNe : List Row → Nat → List Row
  | [], _ => []
  | r :: rs, id => if r.id = id then retainNe rs id else r :: retainNe rs id

/-- Loop of Storage::load_all over the enumerated lines of the journal.
lineNum is the 0-based enumeration counter, rows the accumulator. An entry
line is applied (Insert pushes, Delete retains); a blank line is skipped; a
line that fails to decode (corrupt or snapArray) hits the error branch of
serde_json::from_str, which BREAKS out of the loop when lineNum equals
rows.len() (the source comment calls this skipping a possibly incomplete
last line) and otherwise skips the line with a warning. -/
def loadAllAux : List JLine → Nat → List Row → List Row
  | [], _, rows => rows
  | l :: rest, lineNum, rows =>
    match l with
    | .entry (.insert row _) => loadAllAux rest (lineNum + 1) (rows ++ [row])
    | .entry (.delete id) => loadAllAux rest (lineNum + 1) (retainNe rows id)
    | .blank => loadAllAux rest (lineNum + 1) rows
    | .corrupt => if lineNum = rows.length then rows else loadAllAux rest (lineNum + 1) rows
    | .snapArray _ => if lineNum = rows.length then rows else loadAllAux rest (lineNum + 1) rows

/-- Replay of a whole line list from the empty accumulator. -/
def loadAllLines (lines : List JLine) : List Row :=
  loadAllAux lines 0 []

/-- Path join performed by Storage::new and Database::new: the data directory
prefix. Only relative path arguments are modeled. -/
def dataJoin (p : String) : String := "data/" ++ p

/-- Translation of Storage::new: join under data/, open in append mode
creating the file when absent. The returned string is the stored
Storage.path field; the open append handle is modeled by that path. -/
def StorageNew (p : String) (fs : FS) : String × FS :=
  let path := dataJoin p
  match FS.get fs path with
  | some _ => (path, fs)
  | none => (path, FS.set fs path [])

/-- Translation of Storage::load_all. A missing file yields Ok(empty); an
existing file is replayed line by line. The only error return in the source
is a File::open failure racing the exists check, which the model omits, so
the result is always ok. -/
def StorageLoadAll (fs : FS) (path : String) : Except DbError (List Row) :=
  match FS.get fs path with
  | none => .ok []
  | some lines => .ok (loadAllLines lines)

/-- Translation of Storage::append_entry: serialize an Insert entry with the
current timestamp and writeln it. The timestamp is an explicit argument; the
ioFail oracle models a failed write, which leaves the file with only the
fully written prior entries. -/
def StorageAppendEntry (fs : FS) (path : String) (row : Row) (t : Int)
    (ioFail : Bool) : FS × Except DbError Unit :=
  if ioFail then (fs, .error .IoError)
  else (FS.append fs path (.entry (.insert row t)), .ok ())

/-- Translation of Storage::append_delete. -/
def StorageAppendDelete (fs : FS) (path : String) (id : Nat)
    (ioFail : Bool) : FS × Except DbError Unit :=
  if ioFail then (fs, .error .IoError)
  else (FS.append fs path (.entry (.delete id)), .ok ())

/-- Translation of Storage::snapshot_read: parse the whole file as one JSON
array of rows. A missing file is a File::open error; any content other than
exactly one serialized row array (the only shape snapshot_write produces)
fails to deserialize. -/
def StorageSnapshotRead (fs : FS) (path : String) : Except DbError (List Row) :=
  match FS.get fs path with
  | none => .error .IoError
  | some [JLine.snapArray rows] => .ok rows
  | some _ => .error .SerializationError

/-- Translation of Storage::snapshot_write: write the serialized rows to
dir/mini_db.snapshot.tmp, flush and sync it, then atomically rename it over
dir/mini_db.snapshot. The fail oracle models an I/O failure during the
write, flush, sync or rename, before the snapshot file is replaced; a
partial temporary file is not tracked. -/
def StorageSnapshotWrite (fs : FS) (rows : List Row) (dir : String)
    (fail : Bool) : FS × Except DbError Unit :=
  if fail then (fs, .error .IoError)
  else
    let snapshotPath := dir ++ "/mini_db.snapshot"
    let tmpPath := dir ++ "/mini_db.snapshot.tmp"
    let fs1 := FS.set fs tmpPath [JLine.snapArray rows]
    (FS.rename fs1 tmpPath snapshotPath, .ok ())

/-- Translation of Storage::log_truncate: recreate the file at the given
path as empty (OpenOptions truncate), then flush and sync. -/
def StorageLogTruncate (fs : FS) (path : String) (fail : Bool) :
    FS × Except DbError Unit :=
  if fail then (fs, .error .IoError)
  else (FS.set fs path [], .ok ())

/-- Translation of engine.rs Database: rows, index and the storage handle
(kept as its path). -/
structure Database where
  rows : List Row
  index : IdIndex
  logPath : String
deriving DecidableEq, Repr

/-- Translation of Database::load_from_disk: open the storage at the
hardcoded relative path mini_db.log, read the file at the GIVEN path as a
snapshot falling back to empty on any error, then append the replay of the
storage journal, and rebuild the index from the combined rows. -/
def DatabaseLoadFromDisk (spath : String) (fs : FS) : Database × FS :=
  let sp := StorageNew "mini_db.log" fs
  let storagePath := sp.1
  let fs1 := sp.2
  let rows0 := match StorageSnapshotRead fs1 spath with
    | .ok rows => rows
    | .error _ => []
  let logRows := match StorageLoadAll fs1 storagePath with
    | .ok rws => rws
    | .error _ => []
  let rows := rows0 ++ logRows
  (⟨rows, IdIndex.rebuild rows, storagePath⟩, fs1)

/-- Translation of Database::new: when data/path already exists delegate to
load_from_disk on it, else create the storage at path and replay it. Error
returns of the source (open failures) are not modeled, so the result is
total. -/
def DatabaseNew (p : String) (fs : FS) : Database × FS :=
  let snapshotPath := dataJoin p
  match FS.get fs snapshotPath with
  | some _ => DatabaseLoadFromDisk snapshotPath fs
  | none =>
    let sp := StorageNew p fs
    let rows := match StorageLoadAll sp.2 sp.1 with
      | .ok rws => rws
      | .error _ => []
    (⟨rows, IdIndex.rebuild rows, sp.1⟩, sp.2)

/-- Translation of Database::insert: duplicate check over rows first, then
journal append (fallible), then push onto rows, then index insert whose
error would propagate after the push. -/
def Database.insert (db : Database) (fs : FS) (id : Nat) (name : String)
    (age : Nat) (t : Int) (ioFail : Bool) : Database × FS × Except DbError Unit :=
  if db.rows.any (fun r => r.id == id) then (db, fs, .error (.DuplicateIdError id))
  else
    let row : Row := ⟨id, name, age⟩
    match StorageAppendEntry fs db.logPath row t ioFail with
    | (fs1, .error e) => (db, fs1, .error e)
    | (fs1, .ok _) =>
      let rows1 := db.rows ++ [row]
      match db.index.insert id (rows1.length - 1) with
      | .error e => ({ db with rows := rows1 }, fs1, .error e)
      | .ok idx1 => ({ db with rows := rows1, index := idx1 }, fs1, .ok ())

/-- Translation of Database::delete_by_id: index lookup; when present the id
is removed from the index, THEN the Delete entry is appended (fallible, and
an append failure returns with the index already changed), then the row is
removed at the looked-up position and the index rebuilt. Vec::remove panics
when pos is out of range; List.eraseIdx is the total stand-in, and in every
reachable state pos is in range. -/
def Database.delete_by_id (db : Database) (fs : FS) (id : Nat)
    (ioFail : Bool) : Database × FS × Except DbError Bool :=
  match db.index.get id with
  | some pos =>
    let db1 := { db with index := db.index.remove id }
    match StorageAppendDelete fs db1.logPath id ioFail with
    | (fs1, .error e) => (db1, fs1, .error e)
    | (fs1, .ok _) =>
      let rows1 := db1.rows.eraseIdx pos
      ({ db1 with rows := rows1, index := IdIndex.rebuild rows1 }, fs1, .ok true)
  | none => (db, fs, .ok false)

/-- Translation of Database::select_all: the rows in order. -/
def Database.select_all (db : Database) : List Row := db.rows

/-- Translation of Database::select_by_id. Rust indexes rows[pos], which
panics out of range; the model reads with get?, and in every reachable state
the position is in range. -/
def Database.select_by_id (db : Database) (id : Nat) :
    Except DbError (Option Row) :=
  match db.index.get id with
  | some pos => .ok (db.rows.get? pos)
  | none => .ok none

/-- Translation of Database::get_index_position. -/
def Database.get_index_position (db : Database) (id : Nat) : Option Nat :=
  db.index.get id

/-- Translation of Database::reset_db: clear rows and index in memory first,
then recreate the journal file at storage.path as empty (fallible; a failure
returns with the in-memory state already cleared). -/
def Database.reset_db (db : Database) (fs : FS) (ioFail : Bool) :
    Database × FS × Except DbError Unit :=
  let db1 := { db with rows := [], index := IdIndex.clear db.index }
  if ioFail then (db1, fs, .error .IoError)
  else (db1, FS.set fs db.logPath [], .ok ())

/-- Translation of Database::shutdown: flush and sync the journal handle.
Buffering is not modeled, so the filesystem is unchanged. -/
def Database.shutdown (db : Database) (fs : FS) (ioFail : Bool) :
    Database × FS × Except DbError Unit :=
  if ioFail then (db, fs, .error .IoError) else (db, fs, .ok ())

/-- Translation of Database::should_compact. -/
def Database.should_compact (db : Database) : Bool :=
  decide (50000 ≤ db.rows.length) && decide (db.rows.length % 50000 = 0)

/-- Translation of Database::compact: snapshot_write of the current rows
into the data directory, then log_truncate of the hardcoded path
data/mini_db.log (NOT of storage.path). -/
def Database.compact (db : Database) (fs : FS) (snapFail truncFail : Bool) :
    Database × FS × Except DbError Unit :=
  match StorageSnapshotWrite fs db.rows "data" snapFail with
  | (fs1, .error e) => (db, fs1, .error e)
  | (fs1, .ok _) =>
    match StorageLogTruncate fs1 "data/mini_db.log" truncFail with
    | (fs2, .error e) => (db, fs2, .error e)
    | (fs2, .ok _) => (db, fs2, .ok ())

/-- Translation of parser.rs Command. -/
inductive Command where
  | Insert (id : Nat) (name : String) (age : Nat)
  | ExecBatch (path : String)
  | SelectById (id : Nat)
  | DeleteById (id : Nat)
  | Select
  | Exit
  | Help
  | Reset
deriving DecidableEq, Repr

/-- ASCII whitespace, the fragment of Rust char::is_whitespace the claims
exercise. Implemented structurally so the kernel can evaluate parsing. -/
def isWsChar (c : Char) : Bool :=
  c = ' ' || c = '\t' || c = '\n' || c = '\r'

/-- Rust str::trim over the character list. -/
def trimChars (cs : List Char) : List Char :=
  ((cs.dropWhile isWsChar).reverse.dropWhile isWsChar).reverse

/-- ASCII lowering of one character, the fragment of Rust to_lowercase the
claims exercise. -/
def lowerChar (c : Char) : Char :=
  if 65 ≤ c.toNat ∧ c.toNat ≤ 90 then Char.ofNat (c.toNat + 32) else c

/-- Rust str::to_lowercase over the character list. -/
def lowerChars (cs : List Char) : List Char := cs.map lowerChar

/-- Accumulating tokenizer behind split_whitespace. -/
def splitWsGo : List Char → List Char → List String
  | [], acc => if acc = [] then [] else [String.mk acc.reverse]
  | c :: cs, acc =>
    if isWsChar c then
      if acc = [] then splitWsGo cs [] else String.mk acc.reverse :: splitWsGo cs []
    else splitWsGo cs (c :: acc)

/-- Rust split_whitespace: split on whitespace, yielding no empty tokens. -/
def splitWs (cs : List Char) : List String := splitWsGo cs []

/-- Rust str::split on a single separator character, keeping empty pieces. -/
def splitOnCharGo (sep : Char) : List Char → List Char → List String
  | [], acc => [String.mk acc.reverse]
  | c :: cs, acc =>
    if c = sep then String.mk acc.reverse :: splitOnCharGo sep cs []
    else splitOnCharGo sep cs (c :: acc)

def splitOnChar (sep : Char) (s : String) : List String :=
  splitOnCharGo sep s.data []

/-- Digit-sequence parse behind str::parse, structural for evaluation. -/
def parseNatGo : List Char → Nat → Option Nat
  | [], n => some n
  | c :: cs, n =>
    if c.isDigit then parseNatGo cs (n * 10 + (c.toNat - 48)) else none

/-- Rust str::parse into a nonnegative integer: nonempty digit sequence. -/
def parseNatChars (s : String) : Option Nat :=
  match s.data with
  | [] => none
  | cs => parseNatGo cs 0

/-- Rust str::parse into u32: range checked. -/
def parseU32 (s : String) : Option Nat :=
  match parseNatChars s with
  | some n => if n < 4294967296 then some n else none
  | none => none

/-- Rust str::parse into u8. -/
def parseU8 (s : String) : Option Nat :=
  match parseNatChars s with
  | some n => if n < 256 then some n else none
  | none => none

/-- Rust str::starts_with for the id= guard. -/
def startsWithStr (s pre : String) : Bool :=
  pre.data.isPrefixOf s.data

/-- The id extraction shared by the select and delete arms: split tokens[2]
on "=", take piece 1, parse as u32, with ParseError on both failure modes. -/
def parseIdEq (t2 : String) : Except DbError Nat :=
  match (splitOnChar '=' t2).get? 1 with
  | some s =>
    match parseU32 s with
    | some id => .ok id
    | none => .error (.ParseError "Id not found")
  | none => .error (.ParseError "Id not found")

/-- Translation of parser.rs parse_command: trim and lowercase the input,
reject empty, tokenize by whitespace and match on the head token with the
same arity checks as the source. -/
def parse_command (input : String) : Except DbError Command :=
  let line := lowerChars (trimChars input.data)
  if line = [] then .error .InvalidCommandError
  else
    match splitWs line with
    | [] => .error .InvalidCommandError
    | cmd :: rest =>
      match cmd with
      | "exec" =>
        match rest with
        | [t1, t2] =>
          if t1 = "batch" then .ok (.ExecBatch t2) else .error .InvalidCommandError
        | _ => .error .InvalidCommandError
      | "insert" =>
        match rest with
        | [t1, t2, t3] =>
          match parseU32 t1 with
          | none => .error (.ParseError "ID must be a valid unsigned integer")
          | some id =>
            match parseU8 t3 with
            | none => .error (.ParseError "Age must be a valid integer (0-255)")
            | some age => .ok (.Insert id t2 age)
        | _ => .error .InvalidCommandError
      | "select" =>
        match rest with
        | [] => .ok .Select
        | [t1, t2] =>
          if (t1 == "where") && startsWithStr t2 "id=" then
            match parseIdEq t2 with
            | .ok id => .ok (.SelectById id)
            | .error e => .error e
          else .error .InvalidCommandError
        | _ => .error .InvalidCommandError
      | "delete" =>
        match rest with
        | [t1, t2] =>
          if (t1 == "where") && startsWithStr t2 "id=" then
            match parseIdEq t2 with
            | .ok id => .ok (.DeleteById id)
            | .error e => .error e
          else .error .InvalidCommandError
        | _ => .error .InvalidCommandError
      | "exit" => .ok .Exit
      | "help" => .ok .Help
      | "reset" => .ok .Reset
      | _ => .error .InvalidCommandError

/-- One line of a batch source file as the BufReader yields it: either a
successfully read line or an I/O read failure at that position. -/
inductive BLine where
  | line (s : String)
  | readErr
deriving DecidableEq, Repr

/-- Dispatch of parser.rs handle_command on one input line against the given
database. Printing is not modeled; the Bool result is the continue flag.
Timestamps of inserts issued through this surface are modeled as 0 (replay
ignores them) and per-operation I/O is the success case. The EXEC BATCH arm
is abstracted into execB so that the batch recursion below stays structural
in its fuel; fetch resolves a batch path to the lines of that source file. -/
def dispatch_command (execB : FS → Option (List BLine) → FS × Except DbError Unit)
    (input : String) (db : Database) (fs : FS)
    (fetch : String → Option (List BLine)) : Database × FS × Bool :=
  match parse_command input with
  | .ok (.Insert id name age) =>
    let r := db.insert fs id name age 0 false
    (r.1, r.2.1, true)
  | .ok (.ExecBatch p) =>
    let r := execB fs (fetch p)
    (db, r.1, true)
  | .ok (.SelectById _) => (db, fs, true)
  | .ok (.DeleteById id) =>
    let r := db.delete_by_id fs id false
    (r.1, r.2.1, true)
  | .ok .Select => (db, fs, true)
  | .ok .Exit =>
    let r := db.shutdown fs false
    (r.1, r.2.1, false)
  | .ok .Help => (db, fs, true)
  | .ok .Reset =>
    let r := db.reset_db fs false
    (r.1, r.2.1, true)
  | .error _ => (db, fs, true)

/-- Filesystem effect of Database::exec_batch. A missing source file (batch
none) is the NotFound error. Each successfully read line is handled against
a FRESH DatabaseHandle opened at the relative path mini_db.snapshot (the
source passes that handle where parser.rs handle_command expects the
database, so the dispatch runs against the fresh inner Database, whose
in-memory state is dropped after the line while its filesystem effects
persist); a read failure of the source stops with the I/O error. The fuel
bounds the nesting depth of EXEC BATCH lines, which the source lets recurse
without bound. -/
def exec_batch_core : Nat → FS → Option (List BLine) →
    (String → Option (List BLine)) → FS × Except DbError Unit
  | 0, fs, _, _ => (fs, .error .IoError)
  | f + 1, fs, batch, fetch =>
    match batch with
    | none => (fs, .error .IoError)
    | some lines =>
      lines.foldl
        (fun st l =>
          match st.2 with
          | .error e => (st.1, .error e)
          | .ok _ =>
            match l with
            | .readErr => (st.1, .error .IoError)
            | .line s =>
              let fresh := DatabaseNew "mini_db.snapshot" st.1
              let r := dispatch_command (fun fs2 b => exec_batch_core f fs2 b fetch)
                s fresh.1 fresh.2 fetch
              (r.2.1, .ok ()))
        (fs, .ok ())

/-- Translation of Database::exec_batch: the receiver is only read (the
source takes a shared reference and never applies the commands to it); all
effects land in the filesystem through exec_batch_core. -/
def Database.exec_batch (fuel : Nat) (db : Database) (fs : FS)
    (batch : Option (List BLine)) (fetch : String → Option (List BLine)) :
    Database × FS × Except DbError Unit :=
  let r := exec_batch_core fuel fs batch fetch
  (db, r.1, r.2)

/-- Translation of parser.rs handle_command, tying the EXEC BATCH arm to the
fueled batch executor. -/
def handle_command (fuel : Nat) (input : String) (db : Database) (fs : FS)
    (fetch : String → Option (List BLine)) : Database × FS × Bool :=
  dispatch_command (fun fs2 b => exec_batch_core fuel fs2 b fetch) input db fs fetch

/-- Replay step as the spec states it: an Insert entry pushes its record
onto the accumulator, a Delete entry removes every accumulated record with
the matching key, keeping the order of the rest. -/
def applyEntry (acc : List Row) : LogEntry → List Row
  | .insert row _ => acc ++ [row]
  | .delete id => retainNe acc id

/-- Replay of a full entry sequence from the empty state, as the spec
states it: a left fold of applyEntry. -/
def replaySpec (es : List LogEntry) : List Row :=
  es.foldl applyEntry []

/-- Offset of the first row carrying the given id, the specification of
what the position index must return. -/
def posOf (k : Nat) : List Row → Option Nat
  | [] => none
  | r :: rs => if r.id = k then some 0 else (posOf k rs).map (· + 1)

/-- One engine mutation for reachability arguments: the arguments of an
insert call (with the journal timestamp the append would record) or of a
delete_by_id call. -/
inductive Op where
  | ins (id : Nat) (name : String) (age : Nat) (t : Int)
  | del (id : Nat)

/-- Application of one operation to an engine state and filesystem, in the
normal I/O success case; a failing operation (duplicate insert, absent
delete) leaves the state as the engine leaves it. -/
def applyOp (st : Database × FS) : Op → Database × FS
  | .ins id name age t =>
    let r := st.1.insert st.2 id name age t false
    (r.1, r.2.1)
  | .del id =>
    let r := st.1.delete_by_id st.2 id false
    (r.1, r.2.1)

/-- The state reached from a store freshly opened at the default journal
location on an empty filesystem by a sequence of insert and delete calls. -/
def applyOps (ops : List Op) : Database × FS :=
  ops.foldl applyOp (DatabaseNew "mini_db.log" [])

/-- Engine coherence invariant: the live rows have pairwise distinct ids and
the index maps every key to exactly the offset of its row (none when
absent). -/
def Inv (db : Database) : Prop :=
  (db.rows.map Row.id).Nodup ∧ ∀ k, db.index.get k = posOf k db.rows

theorem mapGet_mapInsert (m : List (Nat × Nat)) (k v k2 : Nat) :
    mapGet (mapInsert m k v) k2 = if k2 = k then some v else mapGet m k2 := by
  induction m with
  | nil =>
    simp only [mapInsert, mapGet]
    by_cases h : k = k2
    · simp [h]
    · have h2 : ¬ k2 = k := fun hc => h hc.symm
      simp [h, h2]
  | cons q m ih =>
    by_cases hq : q.1 = k
    · simp only [mapInsert, if_pos hq, mapGet]
      by_cases h : k = k2
      · simp [h]
      · have h2 : ¬ k2 = k := fun hc => h hc.symm
        have hq2 : ¬ q.1 = k2 := fun hc => h (hq ▸ hc)
        simp [h, h2, hq2]
    · simp only [mapInsert, if_neg hq, mapGet]
      by_cases hq2 : q.1 = k2
      · have h2 : ¬ k2 = k := fun hc => hq (hq2.trans hc)
        simp [hq2, h2]
      · simp [hq2, ih]

theorem mapGet_mapErase (m : List (Nat × Nat)) (k k2 : Nat) :
    mapGet (mapErase m k) k2 = if k2 = k then none else mapGet m k2 := by
  induction m with
  | nil => simp [mapErase, mapGet]
  | cons q m ih =>
    by_cases hq : q.1 = k
    · simp only [mapErase, if_pos hq, mapGet, ih]
      by_cases h : k2 = k
      · simp [h]
      · have hq2 : ¬ q.1 = k2 := fun hc => h ((hc.symm.trans hq))
        simp [h, hq2]
    · simp only [mapErase, if_neg hq, mapGet, ih]
      by_cases hq2 : q.1 = k2
      · have h2 : ¬ k2 = k := fun hc => hq (hq2.trans hc)
        simp [hq2, h2]
      · simp [hq2]

theorem posOf_eq_none (k : Nat) (rows : List Row)
    (h : ∀ r ∈ rows, r.id ≠ k) : posOf k rows = none := by
  induction rows with
  | nil => rfl
  | cons r rs ih =>
    have hr : r.id ≠ k := h r (by simp)
    simp [posOf, hr, ih (fun x hx => h x (by simp [hx]))]

theorem posOf_isSome_of_mem (k : Nat) (rows : List Row)
    (h : ∃ r ∈ rows, r.id = k) : (posOf k rows).isSome := by
  induction rows with
  | nil => simp at h
  | cons r rs ih =>
    by_cases hr : r.id = k
    · simp [posOf, hr]
    · rcases h with ⟨x, hx, hxk⟩
      rcases List.mem_cons.mp hx with hx1 | hx2
      · exact absurd (hx1 ▸ hxk) hr
      · have hs := ih ⟨x, hx2, hxk⟩
        rw [posOf, if_neg hr]
        cases hp : posOf k rs with
        | none => rw [hp] at hs; simp at hs
        | some j => simp

theorem posOf_some_get (k : Nat) (rows : List Row) (p : Nat)
    (h : posOf k rows = some p) :
    ∃ hlt : p < rows.length, (rows.get ⟨p, hlt⟩).id = k := by
  induction rows generalizing p with
  | nil => simp [posOf] at h
  | cons r rs ih =>
    by_cases hr : r.id = k
    · rw [posOf, if_pos hr] at h
      cases h
      exact ⟨by simp, hr⟩
    · rw [posOf, if_neg hr] at h
      cases hp : posOf k rs with
      | none => rw [hp] at h; simp at h
      | some j =>
        rw [hp] at h
        have hjp : j + 1 = p := by simpa using h
        subst hjp
        rcases ih j hp with ⟨hlt, hget⟩
        refine ⟨by simpa using Nat.succ_lt_succ hlt, ?_⟩
        simpa using hget

theorem posOf_append_single (k : Nat) (rows : List Row) (r : Row) :
    posOf k (rows ++ [r]) =
      match posOf k rows with
      | some j => some j
      | none => if r.id = k then some rows.length else none := by
  induction rows with
  | nil =>
    by_cases hr : r.id = k <;> simp [posOf, hr]
  | cons q rs ih =>
    by_cases hq : q.id = k
    · simp [posOf, hq]
    · rw [List.cons_append, posOf, if_neg hq, ih, posOf, if_neg hq]
      cases hp : posOf k rs with
      | none =>
        by_cases hr : r.id = k <;> simp [hr]
      | some j => simp

theorem rebuildGo_get (rows : List Row) (m : List (Nat × Nat)) (i k : Nat)
    (h : (rows.map Row.id).Nodup) :
    mapGet (rebuildGo m i rows) k =
      match posOf k rows with
      | some j => some (i + j)
      | none => mapGet m k := by
  induction rows generalizing m i with
  | nil => simp [rebuildGo, posOf]
  | cons r rs ih =>
    rw [List.map_cons] at h
    have hnd : (rs.map Row.id).Nodup := (List.nodup_cons.mp h).2
    have hrid : r.id ∉ rs.map Row.id := (List.nodup_cons.mp h).1
    by_cases hr : r.id = k
    · have hnone : posOf k rs = none := by
        apply posOf_eq_none
        intro x hx hxk
        exact hrid (by rw [hr, ← hxk]; exact List.mem_map_of_mem Row.id hx)
      rw [rebuildGo, ih _ _ hnd, hnone, posOf, if_pos hr]
      simp [mapGet_mapInsert, hr]
    · rw [rebuildGo, ih _ _ hnd, posOf, if_neg hr]
      cases hp : posOf k rs with
      | none =>
        have hr2 : ¬ k = r.id := fun hc => hr hc.symm
        simp [mapGet_mapInsert, hr2]
      | some j =>
        show some (i + 1 + j) = some (i + (j + 1))
        have hs : i + 1 + j = i + (j + 1) := by omega
        rw [hs]


theorem rebuild_get (rows : List Row) (k : Nat)
    (h : (rows.map Row.id).Nodup) :
    (IdIndex.rebuild rows).get k = posOf k rows := by
  rw [IdIndex.rebuild]
  show mapGet (rebuildGo [] 0 rows) k = posOf k rows
  rw [rebuildGo_get rows [] 0 k h]
  cases hp : posOf k rows with
  | none => rfl
  | some j => simp

theorem loadAllAux_append_corrupt (ls : List JLine) (n : Nat) (acc : List Row) :
    loadAllAux (ls ++ [JLine.corrupt]) n acc = loadAllAux ls n acc := by
  induction ls generalizing n acc with
  | nil =>
    show loadAllAux [JLine.corrupt] n acc = acc
    by_cases h : n = acc.length <;> simp [loadAllAux, h]
  | cons l rest ih =>
    cases l with
    | entry e =>
      cases e with
      | insert row t =>
        simp only [List.cons_append, loadAllAux]
        exact ih _ _
      | delete id =>
        simp only [List.cons_append, loadAllAux]
        exact ih _ _
    | blank =>
      simp only [List.cons_append, loadAllAux]
      exact ih _ _
    | corrupt =>
      simp only [List.cons_append, loadAllAux]
      by_cases h : n = acc.length <;> simp [h, ih]
    | snapArray rows2 =>
      simp only [List.cons_append, loadAllAux]
      by_cases h : n = acc.length <;> simp [h, ih]

theorem loadAllAux_entries (es : List LogEntry) (n : Nat) (acc : List Row) :
    loadAllAux (es.map JLine.entry) n acc = es.foldl applyEntry acc := by
  induction es generalizing n acc with
  | nil => rfl
  | cons e rest ih =>
    cases e with
    | insert row t =>
      simp only [List.map_cons, loadAllAux, List.foldl_cons, applyEntry]
      exact ih _ _
    | delete id =>
      simp only [List.map_cons, loadAllAux, List.foldl_cons, applyEntry]
      exact ih _ _

theorem Inv_insert (db : Database) (fs : FS) (id : Nat) (name : String)
    (age : Nat) (t : Int) (h : Inv db) :
    Inv (db.insert fs id name age t false).1 := by
  rcases h with ⟨hnd, hidx⟩
  by_cases hdup : db.rows.any (fun r => r.id == id) = true
  · simp only [Database.insert, hdup, if_pos]
    exact ⟨hnd, hidx⟩
  · have hnotin : ∀ r ∈ db.rows, r.id ≠ id := by
      intro r hr hco
      exact hdup (List.any_eq_true.mpr ⟨r, hr, by simp [hco]⟩)
    have hpos : posOf id db.rows = none := posOf_eq_none _ _ hnotin
    have hget : mapGet db.index.row_map id = none := (hidx id).trans hpos
    have hres : (db.insert fs id name age t false).1 =
        { db with rows := db.rows ++ [Row.mk id name age],
                  index := ⟨mapInsert db.index.row_map id
                    ((db.rows ++ [Row.mk id name age]).length - 1)⟩ } := by
      simp only [Database.insert, hdup, if_neg, StorageAppendEntry, Bool.false_eq_true,
        IdIndex.insert, hget, Option.isSome_none, if_false]
    rw [hres]
    constructor
    · rw [List.map_append]
      rw [List.nodup_append]
      refine ⟨hnd, by simp, ?_⟩
      intro a ha hb
      simp only [List.map_cons, List.map_nil, List.mem_singleton] at hb
      rcases List.mem_map.mp ha with ⟨r, hr, hrid⟩
      exact hnotin r hr (hrid.trans hb)
    · intro k
      show mapGet (mapInsert db.index.row_map id
        ((db.rows ++ [Row.mk id name age]).length - 1)) k = _
      rw [mapGet_mapInsert, posOf_append_single]
      have hlen : (db.rows ++ [Row.mk id name age]).length - 1 = db.rows.length := by
        simp
      rw [hlen]
      by_cases hk : k = id
      · subst hk
        rw [if_pos rfl, hpos]
        simp [Row.mk]
      · rw [if_neg hk]
        have hik : mapGet db.index.row_map k = posOf k db.rows := hidx k
        rw [hik]
        cases hpk : posOf k db.rows with
        | none =>
          have : ¬ (Row.mk id name age).id = k := fun hc => hk (hc.symm)
          simp [this]
        | some j => simp

theorem Inv_delete (db : Database) (fs : FS) (id : Nat) (h : Inv db) :
    Inv (db.delete_by_id fs id false).1 := by
  rcases h with ⟨hnd, hidx⟩
  cases hg : db.index.get id with
  | none =>
    simp only [Database.delete_by_id, hg]
    exact ⟨hnd, hidx⟩
  | some pos =>
    have hnd2 : ((db.rows.eraseIdx pos).map Row.id).Nodup := by
      have hsub : ((db.rows.eraseIdx pos).map Row.id).Sublist (db.rows.map Row.id) :=
        (List.eraseIdx_sublist db.rows pos).map Row.id
      exact hnd.sublist hsub
    have hres : (db.delete_by_id fs id false).1 =
        { db with rows := db.rows.eraseIdx pos,
                  index := IdIndex.rebuild (db.rows.eraseIdx pos) } := by
      simp only [Database.delete_by_id, hg, StorageAppendDelete, if_neg,
        Bool.false_eq_true, if_false]
    rw [hres]
    exact ⟨hnd2, fun k => rebuild_get _ k hnd2⟩

theorem Inv_start : Inv (DatabaseNew "mini_db.log" []).1 := by
  have hval : (DatabaseNew "mini_db.log" ([] : FS)).1 =
      ⟨[], ⟨[]⟩, "data/mini_db.log"⟩ := by rfl
  rw [hval]
  exact ⟨by simp, fun k => rfl⟩

theorem Inv_applyOp (st : Database × FS) (op : Op) (h : Inv st.1) :
    Inv (applyOp st op).1 := by
  cases op with
  | ins id name age t => exact Inv_insert st.1 st.2 id name age t h
  | del id => exact Inv_delete st.1 st.2 id h

theorem Inv_foldl (ops : List Op) (st : Database × FS) (h : Inv st.1) :
    Inv (ops.foldl applyOp st).1 := by
  induction ops generalizing st with
  | nil => exact h
  | cons op rest ih => exact ih _ (Inv_applyOp st op h)

theorem Inv_applyOps (ops : List Op) : Inv (applyOps ops).1 :=
  Inv_foldl ops _ Inv_start

theorem FS.get_set (fs : FS) (p : String) (d : FileData) (p2 : String) :
    FS.get (FS.set fs p d) p2 = if p2 = p then some d else FS.get fs p2 := by
  induction fs with
  | nil =>
    simp only [FS.set, FS.get]
    by_cases h : p = p2
    · simp [h]
    · have h2 : ¬ p2 = p := fun hc => h hc.symm
      simp [h, h2]
  | cons f fs ih =>
    by_cases hf : f.1 = p
    · simp only [FS.set, if_pos hf, FS.get]
      by_cases h : p = p2
      · simp [h]
      · have h2 : ¬ p2 = p := fun hc => h hc.symm
        have hf2 : ¬ f.1 = p2 := fun hc => h (hf ▸ hc)
        simp [h, h2, hf2]
    · simp only [FS.set, if_neg hf, FS.get]
      by_cases hf2 : f.1 = p2
      · have h2 : ¬ p2 = p := fun hc => hf (hf2.trans hc)
        simp [hf2, h2]
      · simp [hf2, ih]

theorem FS.get_erase (fs : FS) (p p2 : String) :
    FS.get (FS.erase fs p) p2 = if p2 = p then none else FS.get fs p2 := by
  induction fs with
  | nil => simp [FS.erase, FS.get]
  | cons f fs ih =>
    by_cases hf : f.1 = p
    · simp only [FS.erase, if_pos hf, FS.get, ih]
      by_cases h : p2 = p
      · simp [h]
      · have hf2 : ¬ f.1 = p2 := fun hc => h ((hc.symm.trans hf))
        simp [h, hf2]
    · simp only [FS.erase, if_neg hf, FS.get, ih]
      by_cases hf2 : f.1 = p2
      · have h2 : ¬ p2 = p := fun hc => hf (hf2.trans hc)
        simp [hf2, h2]
      · simp [hf2]

theorem FS.get_append_self (fs : FS) (p : String) (l : JLine) (d : FileData)
    (h : FS.get fs p = some d) :
    FS.get (FS.append fs p l) p = some (d ++ [l]) := by
  rw [FS.append, h, FS.get_set, if_pos rfl]

/-- Claim C2: for every journal file whose final line is an incomplete or
corrupt entry and whose earlier lines are well-formed entries, replay
returns Ok and reconstructs exactly the state implied by the prior entries
(the fold of applyEntry); the corrupt final line has no effect. -/
theorem c2_torn_tail_tolerance (es : List LogEntry) (fs : FS) (path : String)
    (h : FS.get fs path = some (es.map JLine.entry ++ [JLine.corrupt])) :
    StorageLoadAll fs path = .ok (replaySpec es) := by
  have hll : loadAllLines (es.map JLine.entry ++ [JLine.corrupt]) = replaySpec es := by
    rw [loadAllLines, replaySpec, loadAllAux_append_corrupt]
    exact loadAllAux_entries es 0 []
  unfold StorageLoadAll
  rw [h]
  show Except.ok (loadAllLines (es.map JLine.entry ++ [JLine.corrupt]))
    = Except.ok (replaySpec es)
  rw [hll]

/-- Witness for claim C2 at a concrete journal: one insert, one delete,
then a torn final line. -/
theorem c2_torn_tail_tolerance_witness :
    StorageLoadAll
      [("data/mini_db.log",
        [JLine.entry (.insert ⟨1, "alice", 30⟩ 5), JLine.entry (.delete 9),
         JLine.corrupt])]
      "data/mini_db.log"
      = .ok (replaySpec [.insert ⟨1, "alice", 30⟩ 5, .delete 9]) :=
  c2_torn_tail_tolerance [.insert ⟨1, "alice", 30⟩ 5, .delete 9]
    [("data/mini_db.log",
      [JLine.entry (.insert ⟨1, "alice", 30⟩ 5), JLine.entry (.delete 9),
       JLine.corrupt])]
    "data/mini_db.log" (by decide)

/-- Claim C3 is refuted by the code: a journal whose FIRST line fails to
decode and whose SECOND (and last) line is a well-formed insert replays to
the empty row set. The break heuristic of load_all compares the line number
with the accumulated row count, fires on the non-final corrupt line (0 = 0)
and drops the later well-formed entry, instead of skipping only the corrupt
line as the claim states. -/
theorem c3_midfile_corrupt_line_eval :
    StorageLoadAll
      [("data/mini_db.log",
        [JLine.corrupt, JLine.entry (.insert ⟨1, "alice", 30⟩ 0)])]
      "data/mini_db.log" = .ok [] ∧
    ([] : List Row) ≠ [⟨1, "alice", 30⟩] := by
  exact ⟨rfl, by decide⟩

/-- Claim C8: replaying a full ordered sequence of well-formed journal
entries from the empty state computes exactly the fold in which each Insert
entry appends its record and each Delete entry removes every accumulated
record with a matching key, preserving the order of the rest. -/
theorem c8_replay_is_fold (es : List LogEntry) :
    loadAllLines (es.map JLine.entry) = replaySpec es := by
  rw [loadAllLines, replaySpec]
  exact loadAllAux_entries es 0 []

/-- Claim C5: inserting a key already present in the live rows fails with
DuplicateIdError for every I/O behavior of the journal append (so the
duplicate check precedes any journal write) and leaves the rows, the index
and the filesystem (hence the journal) unchanged. -/
theorem c5_duplicate_insert_rejected (db : Database) (fs : FS) (id : Nat)
    (name : String) (age : Nat) (t : Int) (ioFail : Bool)
    (h : ∃ r ∈ db.rows, r.id = id) :
    db.insert fs id name age t ioFail = (db, fs, .error (.DuplicateIdError id)) := by
  have hany : db.rows.any (fun r => r.id == id) = true :=
    List.any_eq_true.mpr (by rcases h with ⟨r, hr, hrk⟩; exact ⟨r, hr, by simp [hrk]⟩)
  simp [Database.insert, hany]

/-- Witness for claim C5 at a concrete store holding key 1, with the append
oracle set to failing to exhibit that the duplicate check comes first. -/
theorem c5_duplicate_insert_rejected_witness :
    Database.insert ⟨[⟨1, "alice", 30⟩], ⟨[(1, 0)]⟩, "data/mini_db.log"⟩
      [("data/mini_db.log", [JLine.entry (.insert ⟨1, "alice", 30⟩ 0)])]
      1 "bob" 25 7 true
      = (⟨[⟨1, "alice", 30⟩], ⟨[(1, 0)]⟩, "data/mini_db.log"⟩,
         [("data/mini_db.log", [JLine.entry (.insert ⟨1, "alice", 30⟩ 0)])],
         .error (.DuplicateIdError 1)) :=
  c5_duplicate_insert_rejected ⟨[⟨1, "alice", 30⟩], ⟨[(1, 0)]⟩, "data/mini_db.log"⟩
    [("data/mini_db.log", [JLine.entry (.insert ⟨1, "alice", 30⟩ 0)])]
    1 "bob" 25 7 true (by decide)

/-- Claim C6 counterexample: on a store holding exactly the row with key 1,
delete_by_id 1 with a failing journal append returns the I/O error, yet the
in-memory state is NOT what it was before the call: the index entry for key
1 is already gone (the index removal precedes the append). -/
theorem c6_delete_ioerr_counterexample :
    (Database.delete_by_id ⟨[⟨1, "alice", 30⟩], ⟨[(1, 0)]⟩, "data/mini_db.log"⟩
        [("data/mini_db.log", [JLine.entry (.insert ⟨1, "alice", 30⟩ 0)])]
        1 true).2.2 = .error .IoError ∧
    (Database.delete_by_id ⟨[⟨1, "alice", 30⟩], ⟨[(1, 0)]⟩, "data/mini_db.log"⟩
        [("data/mini_db.log", [JLine.entry (.insert ⟨1, "alice", 30⟩ 0)])]
        1 true).1
      ≠ ⟨[⟨1, "alice", 30⟩], ⟨[(1, 0)]⟩, "data/mini_db.log"⟩ := by
  exact ⟨rfl, by decide⟩

/-- Claim C6 amended: when the key is present in the index and the journal
append fails with an I/O error, delete_by_id returns that error with the
live rows and the filesystem unchanged, but with the key already removed
from the position index. -/
theorem c6_delete_ioerr_amended (db : Database) (fs : FS) (id pos : Nat)
    (h : db.index.get id = some pos) :
    db.delete_by_id fs id true =
      ({ db with index := db.index.remove id }, fs, .error .IoError) := by
  simp [Database.delete_by_id, h, StorageAppendDelete]

/-- Witness for the amended claim C6 at the concrete one-row store. -/
theorem c6_delete_ioerr_amended_witness :
    Database.delete_by_id ⟨[⟨1, "alice", 30⟩], ⟨[(1, 0)]⟩, "data/mini_db.log"⟩
      [("data/mini_db.log", [JLine.entry (.insert ⟨1, "alice", 30⟩ 0)])] 1 true
      = (⟨[⟨1, "alice", 30⟩], IdIndex.remove ⟨[(1, 0)]⟩ 1, "data/mini_db.log"⟩,
         [("data/mini_db.log", [JLine.entry (.insert ⟨1, "alice", 30⟩ 0)])],
         .error .IoError) :=
  c6_delete_ioerr_amended ⟨[⟨1, "alice", 30⟩], ⟨[(1, 0)]⟩, "data/mini_db.log"⟩
    [("data/mini_db.log", [JLine.entry (.insert ⟨1, "alice", 30⟩ 0)])] 1 0 (by decide)

/-- Claim C4: in every state reachable from the empty store by a sequence of
insert and delete operations, the position index maps each live key to the
exact offset of its row in the live collection (any offset it returns is in
range and holds that key, and every live key gets an offset) and maps no
absent key. -/
theorem c4_index_coherence (ops : List Op) (k : Nat) :
    (∀ p, (applyOps ops).1.index.get k = some p →
      ∃ hlt : p < (applyOps ops).1.rows.length,
        ((applyOps ops).1.rows.get ⟨p, hlt⟩).id = k) ∧
    ((∃ r ∈ (applyOps ops).1.rows, r.id = k) →
      ((applyOps ops).1.index.get k).isSome) ∧
    ((∀ r ∈ (applyOps ops).1.rows, r.id ≠ k) →
      (applyOps ops).1.index.get k = none) := by
  rcases Inv_applyOps ops with ⟨hnd, hidx⟩
  refine ⟨?_, ?_, ?_⟩
  · intro p hp
    rw [hidx k] at hp
    exact posOf_some_get k _ p hp
  · intro hmem
    rw [hidx k]
    exact posOf_isSome_of_mem k _ hmem
  · intro habs
    rw [hidx k]
    exact posOf_eq_none k _ habs

/-- Witness for claim C4 after inserting keys 1 and 2 and deleting key 1:
the index locates key 2, and returns nothing for the deleted key 1. -/
theorem c4_index_coherence_witness :
    (∃ hlt : 0 < (applyOps [Op.ins 1 "a" 30 0, Op.ins 2 "b" 25 1, Op.del 1]).1.rows.length,
      ((applyOps [Op.ins 1 "a" 30 0, Op.ins 2 "b" 25 1, Op.del 1]).1.rows.get
        ⟨0, hlt⟩).id = 2) ∧
    (applyOps [Op.ins 1 "a" 30 0, Op.ins 2 "b" 25 1, Op.del 1]).1.index.get 1 = none :=
  ⟨(c4_index_coherence [Op.ins 1 "a" 30 0, Op.ins 2 "b" 25 1, Op.del 1] 2).1 0 (by decide),
   (c4_index_coherence [Op.ins 1 "a" 30 0, Op.ins 2 "b" 25 1, Op.del 1] 1).2.2 (by decide)⟩

/-- Claim C7 counterexample: on a store whose journal handle points at
data/other.log, compact succeeds, yet the journal file the engine appends
its entries to still holds its entry, so replaying it is NOT the empty
sequence; only the fixed path data/mini_db.log was truncated. -/
theorem c7_compact_counterexample :
    (Database.compact ⟨[⟨1, "alice", 30⟩], ⟨[(1, 0)]⟩, "data/other.log"⟩
        [("data/other.log", [JLine.entry (.insert ⟨1, "alice", 30⟩ 0)])]
        false false).2.2 = .ok () ∧
    StorageLoadAll
      (Database.compact ⟨[⟨1, "alice", 30⟩], ⟨[(1, 0)]⟩, "data/other.log"⟩
        [("data/other.log", [JLine.entry (.insert ⟨1, "alice", 30⟩ 0)])]
        false false).2.1
      "data/other.log" ≠ .ok [] := by
  exact ⟨rfl, by decide⟩

/-- Claim C7 amended: whenever compact succeeds the full live collection
has first been written to data/mini_db.snapshot through the temporary file
renamed into place (the temporary is gone afterwards), and only then is the
journal truncated, in the sense that a failing snapshot write returns the
error with the whole filesystem unchanged; after success the file at the
fixed path data/mini_db.log is empty and replays to the empty sequence, and
that file is the journal the engine appends to exactly when the store was
opened at the default journal location. -/
theorem c7_compact_amended (db : Database) (fs : FS) (tf : Bool) :
    ((db.compact fs false false).2.2 = .ok () ∧
     FS.get (db.compact fs false false).2.1 "data/mini_db.snapshot"
       = some [JLine.snapArray db.rows] ∧
     FS.get (db.compact fs false false).2.1 "data/mini_db.snapshot.tmp" = none ∧
     FS.get (db.compact fs false false).2.1 "data/mini_db.log" = some [] ∧
     loadAllLines [] = [] ∧
     (db.logPath = "data/mini_db.log" →
       FS.get (db.compact fs false false).2.1 db.logPath = some [])) ∧
    ((db.compact fs true tf).2.1 = fs ∧
     (db.compact fs true tf).2.2 = .error .IoError) := by
  have hget : FS.get (FS.set fs "data/mini_db.snapshot.tmp"
      [JLine.snapArray db.rows]) "data/mini_db.snapshot.tmp"
      = some [JLine.snapArray db.rows] := by
    rw [FS.get_set, if_pos rfl]
  have hsnap : StorageSnapshotWrite fs db.rows "data" false =
      (FS.set (FS.erase (FS.set fs "data/mini_db.snapshot.tmp"
          [JLine.snapArray db.rows]) "data/mini_db.snapshot.tmp")
        "data/mini_db.snapshot" [JLine.snapArray db.rows], .ok ()) := by
    show (FS.rename (FS.set fs "data/mini_db.snapshot.tmp" [JLine.snapArray db.rows])
        "data/mini_db.snapshot.tmp" "data/mini_db.snapshot", Except.ok ()) = _
    unfold FS.rename
    rw [hget]
  have hcomp : db.compact fs false false =
      (db, FS.set (FS.set (FS.erase (FS.set fs "data/mini_db.snapshot.tmp"
          [JLine.snapArray db.rows]) "data/mini_db.snapshot.tmp")
        "data/mini_db.snapshot" [JLine.snapArray db.rows])
        "data/mini_db.log" [], .ok ()) := by
    rw [Database.compact, hsnap]
    rfl
  refine ⟨⟨by rw [hcomp], ?_, ?_, ?_, rfl, ?_⟩, rfl, rfl⟩
  · rw [hcomp]
    show FS.get (FS.set _ "data/mini_db.log" []) "data/mini_db.snapshot" = _
    rw [FS.get_set, if_neg (by decide), FS.get_set, if_pos rfl]
  · rw [hcomp]
    show FS.get (FS.set _ "data/mini_db.log" []) "data/mini_db.snapshot.tmp" = _
    rw [FS.get_set, if_neg (by decide), FS.get_set, if_neg (by decide),
      FS.get_erase, if_pos rfl]
  · rw [hcomp]
    show FS.get (FS.set _ "data/mini_db.log" []) "data/mini_db.log" = _
    rw [FS.get_set, if_pos rfl]
  · intro hp
    rw [hcomp, hp]
    show FS.get (FS.set _ "data/mini_db.log" []) "data/mini_db.log" = _
    rw [FS.get_set, if_pos rfl]

/-- Witness for the amended claim C7 at a store opened at the default
journal location: after a successful compact its own journal is empty. -/
theorem c7_compact_amended_witness :
    FS.get ((Database.compact ⟨[⟨1, "alice", 30⟩], ⟨[(1, 0)]⟩, "data/mini_db.log"⟩
        [("data/mini_db.log", [JLine.entry (.insert ⟨1, "alice", 30⟩ 0)])]
        false false).2.1)
      (Database.logPath ⟨[⟨1, "alice", 30⟩], ⟨[(1, 0)]⟩, "data/mini_db.log"⟩)
      = some [] :=
  ((c7_compact_amended ⟨[⟨1, "alice", 30⟩], ⟨[(1, 0)]⟩, "data/mini_db.log"⟩
    [("data/mini_db.log", [JLine.entry (.insert ⟨1, "alice", 30⟩ 0)])]
    false).1.2.2.2.2.2) rfl

/-- Claim C9 is refuted by the code: exec_batch never applies the parsed
operations to the engine instance it was invoked on. The receiver comes
back untouched for every input, and at the concrete failing input (a batch
holding the single line inserting key 1, run against an empty store) the
batch reports success, the invoked instance still has no rows afterwards,
and the insert landed in a fresh store opened at mini_db.snapshot instead.
The stopping discipline the claim describes (only a source read failure
aborts; a business failure is reported and skipped) does hold of the code,
but the operations reach the wrong database instance. -/
theorem c9_exec_batch_eval :
    (∀ (fuel : Nat) (db : Database) (fs : FS) b f,
      (Database.exec_batch fuel db fs b f).1 = db) ∧
    (Database.exec_batch 9 ⟨[], ⟨[]⟩, "data/mini_db.log"⟩ []
        (some [BLine.line "insert 1 alice 30"]) (fun _ => none)).2.2 = .ok () ∧
    (Database.exec_batch 9 ⟨[], ⟨[]⟩, "data/mini_db.log"⟩ []
        (some [BLine.line "insert 1 alice 30"]) (fun _ => none)).1.rows = [] ∧
    FS.get (Database.exec_batch 9 ⟨[], ⟨[]⟩, "data/mini_db.log"⟩ []
        (some [BLine.line "insert 1 alice 30"]) (fun _ => none)).2.1
      "data/mini_db.snapshot"
      = some [JLine.entry (.insert ⟨1, "alice", 30⟩ 0)] := by
  exact ⟨fun fuel db fs b f => rfl, rfl, rfl, by decide⟩

/-- Claim C10 counterexample: on a store opened at the default journal
location, with an existing snapshot file holding the row of key 2, reset_db
leaves the snapshot byte for byte unchanged, yet closing and reopening the
store from the same location yields the EMPTY store rather than the
snapshot records: Database::new hands the journal path data/mini_db.log to
load_from_disk as the snapshot to read (which fails to parse, yielding no
rows) and data/mini_db.snapshot is never consulted. -/
theorem c10_reset_reopen_counterexample :
    FS.get (Database.reset_db ⟨[⟨1, "alice", 30⟩], ⟨[(1, 0)]⟩, "data/mini_db.log"⟩
        [("data/mini_db.log", [JLine.entry (.insert ⟨1, "alice", 30⟩ 0)]),
         ("data/mini_db.snapshot", [JLine.snapArray [⟨2, "bob", 25⟩]])]
        false).2.1 "data/mini_db.snapshot"
      = some [JLine.snapArray [⟨2, "bob", 25⟩]] ∧
    (DatabaseNew "mini_db.log"
      (Database.reset_db ⟨[⟨1, "alice", 30⟩], ⟨[(1, 0)]⟩, "data/mini_db.log"⟩
        [("data/mini_db.log", [JLine.entry (.insert ⟨1, "alice", 30⟩ 0)]),
         ("data/mini_db.snapshot", [JLine.snapArray [⟨2, "bob", 25⟩]])]
        false).2.1).1.rows = [] ∧
    ([] : List Row) ≠ [⟨2, "bob", 25⟩] := by
  exact ⟨by decide, by decide, by decide⟩

/-- Claim C10 amended: reset_db clears the in-memory rows and index and
truncates only the journal file at storage.path, leaving every other file
(in particular the snapshot) byte for byte unchanged; a reset followed by
closing and reopening yields the snapshot records when the store is
reopened at the snapshot location mini_db.snapshot, while reopening at the
default journal location yields an empty store. -/
theorem c10_reset_frame_amended (db : Database) (fs : FS) (srows : List Row)
    (hpath : db.logPath = "data/mini_db.log")
    (hsnap : FS.get fs "data/mini_db.snapshot" = some [JLine.snapArray srows]) :
    (db.reset_db fs false).2.2 = .ok () ∧
    (db.reset_db fs false).1.rows = [] ∧
    (db.reset_db fs false).1.index = IdIndex.clear db.index ∧
    (∀ p, p ≠ db.logPath → FS.get (db.reset_db fs false).2.1 p = FS.get fs p) ∧
    FS.get (db.reset_db fs false).2.1 db.logPath = some [] ∧
    (DatabaseNew "mini_db.snapshot" (db.reset_db fs false).2.1).1.rows = srows := by
  have hfs1 : (db.reset_db fs false).2.1 = FS.set fs db.logPath [] := rfl
  have hframe : ∀ p, p ≠ db.logPath →
      FS.get (db.reset_db fs false).2.1 p = FS.get fs p := by
    intro p hp
    rw [hfs1, FS.get_set, if_neg hp]
  have hlog : FS.get (db.reset_db fs false).2.1 db.logPath = some [] := by
    rw [hfs1, FS.get_set, if_pos rfl]
  refine ⟨rfl, rfl, rfl, hframe, hlog, ?_⟩
  have hsnap1 : FS.get (db.reset_db fs false).2.1 "data/mini_db.snapshot"
      = some [JLine.snapArray srows] := by
    rw [hframe "data/mini_db.snapshot" (by rw [hpath]; decide), hsnap]
  have hlog1 : FS.get (db.reset_db fs false).2.1 "data/mini_db.log" = some [] := by
    rw [← hpath]; exact hlog
  rw [DatabaseNew]
  have hjoin : dataJoin "mini_db.snapshot" = "data/mini_db.snapshot" := rfl
  rw [hjoin, hsnap1]
  show (DatabaseLoadFromDisk "data/mini_db.snapshot" (db.reset_db fs false).2.1).1.rows = srows
  rw [DatabaseLoadFromDisk]
  have hsn : StorageNew "mini_db.log" (db.reset_db fs false).2.1
      = ("data/mini_db.log", (db.reset_db fs false).2.1) := by
    rw [StorageNew]
    have h1 : dataJoin "mini_db.log" = "data/mini_db.log" := rfl
    rw [h1, hlog1]
  rw [hsn]
  show ((match StorageSnapshotRead (db.reset_db fs false).2.1 "data/mini_db.snapshot" with
      | .ok rows => rows
      | .error _ => []) ++
    (match StorageLoadAll (db.reset_db fs false).2.1 "data/mini_db.log" with
      | .ok rws => rws
      | .error _ => [])) = srows
  rw [StorageSnapshotRead, StorageLoadAll, hsnap1, hlog1]
  show (srows ++ loadAllLines []) = srows
  rw [loadAllLines]
  show srows ++ [] = srows
  exact List.append_nil srows

/-- Witness for the amended claim C10 at the concrete store and snapshot. -/
theorem c10_reset_frame_amended_witness :
    (DatabaseNew "mini_db.snapshot"
      (Database.reset_db ⟨[⟨1, "alice", 30⟩], ⟨[(1, 0)]⟩, "data/mini_db.log"⟩
        [("data/mini_db.log", [JLine.entry (.insert ⟨1, "alice", 30⟩ 0)]),
         ("data/mini_db.snapshot", [JLine.snapArray [⟨2, "bob", 25⟩]])]
        false).2.1).1.rows = [⟨2, "bob", 25⟩] :=
  (c10_reset_frame_amended ⟨[⟨1, "alice", 30⟩], ⟨[(1, 0)]⟩, "data/mini_db.log"⟩
    [("data/mini_db.log", [JLine.entry (.insert ⟨1, "alice", 30⟩ 0)]),
     ("data/mini_db.snapshot", [JLine.snapArray [⟨2, "bob", 25⟩]])]
    [⟨2, "bob", 25⟩] rfl (by decide)).2.2.2.2.2

/-- Claim C1 is refuted by the code away from the default location: a store
opened at other.log, one row inserted (visible in select_all), flushed by
shutdown and reopened from the same location, reports an empty select_all.
Database::new sees that data/other.log exists, load_from_disk misreads that
journal file as a snapshot (the parse fails, contributing no rows) and then
replays the hardcoded path data/mini_db.log rather than the journal the
store wrote, so every row is lost. The repository persistence tests, which
open stores at temporary locations and expect the rows to survive, fail on
this path. -/
theorem c1_roundtrip_eval :
    ((((DatabaseNew "other.log" []).1.insert (DatabaseNew "other.log" []).2
        1 "alice" 30 0 false).1).select_all = [⟨1, "alice", 30⟩]) ∧
    (((DatabaseNew "other.log" []).1.insert (DatabaseNew "other.log" []).2
        1 "alice" 30 0 false).2.2 = .ok ()) ∧
    (((((DatabaseNew "other.log" []).1.insert (DatabaseNew "other.log" []).2
        1 "alice" 30 0 false).1).shutdown
        (((DatabaseNew "other.log" []).1.insert (DatabaseNew "other.log" []).2
          1 "alice" 30 0 false).2.1) false).2.2 = .ok ()) ∧
    ((DatabaseNew "other.log"
      ((((DatabaseNew "other.log" []).1.insert (DatabaseNew "other.log" []).2
        1 "alice" 30 0 false).1).shutdown
        (((DatabaseNew "other.log" []).1.insert (DatabaseNew "other.log" []).2
          1 "alice" 30 0 false).2.1) false).2.1).1.select_all = []) ∧
    ([] : List Row) ≠ [⟨1, "alice", 30⟩] := by
  exact ⟨by decide, by decide, by decide, by decide, by decide⟩

end MiniDb
